import Mathlib

/-
Verification of the slate-edit-table normalization schema.

The development shallowly embeds the three source files:
  - the table schema (makeSchema and its six rules),
  - the up/down navigation handler (onUpDown),
  - the setColumnAlign change.
Node trees are modelled as an inductive type; Immutable.js lists become
Lean lists; the node data map becomes an association list of dynamic
values (DVal), which also models plain JS objects so that the exact
shape stored by setColumnAlign can be expressed.  JS property accesses
that can be undefined (a text node has no child list; a non-array value
has no length) are modelled with Option, where none stands for the JS
undefined / a thrown TypeError at the use site.
-/

namespace SlateTable

/-- Alignment tags: the closed enumeration used by the plugin
(ALIGN.DEFAULT and friends). -/
inductive Align where
  | default
  | left
  | center
  | right
deriving DecidableEq, Repr

/-- Dynamic data values stored in a node's data map: either a JS array of
alignment tags (what createAlign produces) or a plain JS object mapping
keys to further values (what Object.assign produces). -/
inductive DVal where
  | arr (l : List Align)
  | obj (entries : List (String × DVal))
deriving Repr

/-- A node's data map, as an ordered association list (JS object /
Immutable.Map with insertion order). -/
abbrev Data := List (String × DVal)

/-- Kind of a non-text node: document, block or inline. -/
inductive EKind where
  | document
  | block
  | inl
deriving DecidableEq, Repr

/-- A Slate node: either a text node holding a string, or an element
(document / block / inline) with a type tag, a data map and children.
A document node carries a dummy type string; its observable type is
undefined (see Node.tyQ). -/
inductive Node where
  | text (s : String)
  | elem (kind : EKind) (ty : String) (data : Data) (children : List Node)
deriving Repr

/-- Observable node.type: undefined (none) for text and document nodes,
the type tag for blocks and inlines. -/
def Node.tyQ : Node → Option String
  | .text _ => none
  | .elem .document _ _ _ => none
  | .elem _ ty _ _ => some ty

/-- Whether node.kind is block. -/
def Node.isBlockKind : Node → Bool
  | .elem .block _ _ _ => true
  | _ => false

/-- Whether node.kind is document or block. -/
def Node.isDocOrBlock : Node → Bool
  | .elem .document _ _ _ => true
  | .elem .block _ _ _ => true
  | _ => false

/-- The child list of an element; a text node yields the empty list.
Used only where the source has already established the node is not a
text node (all rule matches exclude text nodes). -/
def Node.childrenD : Node → List Node
  | .text _ => []
  | .elem _ _ _ cs => cs

/-- The child list as the JS expression node.nodes would yield: a text
node has no nodes property, so reading it gives undefined (none). -/
def Node.childrenQ : Node → Option (List Node)
  | .text _ => none
  | .elem _ _ _ cs => some cs

/-- The data map of an element; a text node yields the empty map. -/
def Node.dataD : Node → Data
  | .text _ => []
  | .elem _ _ d _ => d

/-- Replace the children of an element, leaving text nodes unchanged. -/
def Node.withChildren : Node → List Node → Node
  | .text s, _ => .text s
  | .elem k ty d _, cs => .elem k ty d cs

/-- Replace the data of an element, leaving text nodes unchanged. -/
def Node.withData : Node → Data → Node
  | .text s, _ => .text s
  | .elem k ty _ cs, d => .elem k ty d cs

/-- Retype a node, as Slate's setNodeByKey with a type string does:
the type tag changes, kind, data and children are preserved. -/
def Node.retype : Node → String → Node
  | .text s, _ => .text s
  | .elem k _ d cs, ty => .elem k ty d cs

/-- The plugin options naming the three structural block types. -/
structure Options where
  typeTable : String
  typeRow : String
  typeCell : String

/-- The default configuration (table / row / cell type tags). -/
def stdOpts : Options := ⟨"table", "row", "cell"⟩

/-- Whether a node's type is the configured cell type. -/
def isCellN (o : Options) (n : Node) : Bool := n.tyQ == some o.typeCell

/-- Whether a node's type is the configured row type. -/
def isRowN (o : Options) (n : Node) : Bool := n.tyQ == some o.typeRow

/-- Whether a node's type is the configured table type. -/
def isTableN (o : Options) (n : Node) : Bool := n.tyQ == some o.typeTable

/-- Look up the raw value stored under the align key of a data map;
none models an absent key (the JS default List() in validate, or
undefined in setColumnAlign). -/
def getAlignRaw (d : Data) : Option DVal := d.lookup "align"

/-- The JS expression value.length for the stored align value: arrays
have a numeric length; a plain object, and the Immutable List() default,
have no length property (undefined, modelled as none). -/
def alignLengthRaw : Option DVal → Option Nat
  | some (.arr l) => some l.length
  | _ => none

/-- Object.assign on a data map: set the key if present (in place,
preserving order), otherwise append it. -/
def assignKey (d : Data) (k : String) (v : DVal) : Data :=
  if (d.lookup k).isSome then
    d.map (fun kv => if kv.1 == k then (k, v) else kv)
  else d ++ [(k, v)]

/-- Modelled from the spec: createAlign (the file src/createAlign.js is
not among the sources).  Returns a vector of length width; positions
below the length of an existing array copy its values, all remaining
positions are the default tag.  A non-array existing value (undefined,
an Immutable List, a plain object) has an undefined length, so nothing
is copied from it. -/
def createAlign (width : Nat) (existing : Option DVal) : List Align :=
  (List.range width).map (fun i =>
    match existing with
    | some (.arr l) => l.getD i .default
    | _ => .default)

/-- Synthesized empty cell (makeEmptyCell): a cell block containing one
empty text node. -/
def makeEmptyCell (o : Options) : Node :=
  .elem .block o.typeCell [] [.text ""]

/-- Synthesized empty row (makeEmptyRow): a row block containing one
synthesized empty cell. -/
def makeEmptyRow (o : Options) : Node :=
  .elem .block o.typeRow [] [makeEmptyCell o]

/-! Rule 1: noBlocksWithinCell. -/

/-- Match of noBlocksWithinCell: block nodes of the cell type. -/
def cellMatch (o : Options) (n : Node) : Bool :=
  n.isBlockKind && (n.tyQ == some o.typeCell)

/-- The nested block children of a cell (node.nodes.filter kind block). -/
def nestedBlocks (n : Node) : List Node :=
  n.childrenD.filter (fun c => c.isBlockKind)

/-- Validate of noBlocksWithinCell: the nested blocks when there are
any, else no violation. -/
def cellValidate (n : Node) : Option (List Node) :=
  let nb := nestedBlocks n
  if nb.isEmpty then none else some nb

/-- Effect of unwrapping one grandchild of the nested block with index
blockIdx in the filtered nested-block list: a text grandchild of a
block with nonzero index gets a newline prepended
(insertTextByKey at offset 0), everything else is promoted as is. -/
def unwrapGrand (blockIdx : Nat) (g : Node) : Node :=
  if blockIdx != 0 then
    match g with
    | .text s => .text ("\n" ++ s)
    | g => g
  else g

/-- Net effect on a cell's child list of noBlocksWithinCell's normalize:
each block child (tracked by its index bi among the block children, the
index in the filtered nestedBlocks list) is replaced in place by its
children, transformed by unwrapGrand; non-block children stay.  This is
the net result of the source's sequence of insertTextByKey and
unwrapNodeByKey edits (each grandchild is lifted into the cell at the
block's position, in order; the emptied block disappears; the
hasDescendant guard is always true in this sequential replay). -/
def cellNormChildren : List Node → Nat → List Node
  | [], _ => []
  | c :: cs, bi =>
    if c.isBlockKind then
      (c.childrenD.map (unwrapGrand bi)) ++ cellNormChildren cs (bi + 1)
    else
      c :: cellNormChildren cs bi

/-- Normalize of noBlocksWithinCell as a local transform of the cell. -/
def cellNormalize (n : Node) : Node :=
  n.withChildren (cellNormChildren n.childrenD 0)

/-! Rule 2: cellsWithinTable. -/

/-- Match of cellsWithinTable: document or block nodes whose type is not
the row type. -/
def cwtMatch (o : Options) (n : Node) : Bool :=
  n.isDocOrBlock && (n.tyQ != some o.typeRow)

/-- Validate of cellsWithinTable: the direct cell children when there
are any. -/
def cwtValidate (o : Options) (n : Node) : Option (List Node) :=
  let cells := n.childrenD.filter (isCellN o)
  if cells.isEmpty then none else some cells

/-- Wrap a node in a new row block (wrapBlockByKey with a type string:
empty data). -/
def wrapInRow (o : Options) (c : Node) : Node :=
  .elem .block o.typeRow [] [c]

/-- Normalize of cellsWithinTable: each cell child is wrapped in its own
row (one wrapBlockByKey per payload cell). -/
def cwtNormalize (o : Options) (n : Node) : Node :=
  n.withChildren (n.childrenD.map (fun c =>
    if isCellN o c then wrapInRow o c else c))

/-! Rule 3: rowsWithinTable. -/

/-- Match of rowsWithinTable: document or block nodes whose type is not
the table type. -/
def rwtMatch (o : Options) (n : Node) : Bool :=
  n.isDocOrBlock && (n.tyQ != some o.typeTable)

/-- Validate of rowsWithinTable: the direct row children when there are
any. -/
def rwtValidate (o : Options) (n : Node) : Option (List Node) :=
  let rows := n.childrenD.filter (isRowN o)
  if rows.isEmpty then none else some rows

/-- Wrap a row in a new table block carrying align data sized to the
row's child count (wrapBlockByKey with type and data). -/
def wrapInTable (o : Options) (r : Node) : Node :=
  .elem .block o.typeTable [("align", .arr (createAlign r.childrenD.length none))] [r]

/-- Normalize of rowsWithinTable: each row child is wrapped in its own
table (one wrapBlockByKey per payload row). -/
def rwtNormalize (o : Options) (n : Node) : Node :=
  n.withChildren (n.childrenD.map (fun c =>
    if isRowN o c then wrapInTable o c else c))

/-! Rule 4: tablesContainOnlyRows. -/

/-- Match of the three table rules: nodes of the table type. -/
def tableMatch (o : Options) (n : Node) : Bool := isTableN o n

/-- Validate of tablesContainOnlyRows: the non-row children, together
with the row to add when every child is invalid (which includes a table
with zero children, since 0 equals 0). -/
def tcorValidate (o : Options) (t : Node) : Option (List Node × List Node) :=
  let invalids := t.childrenD.filter (fun c => !(isRowN o c))
  let add := if invalids.length == t.childrenD.length then [makeEmptyRow o] else []
  if invalids.isEmpty && add.isEmpty then none else some (invalids, add)

/-- Normalize of tablesContainOnlyRows: remove every payload invalid
(by key: the net effect keeps exactly the row children) and insert the
payload add nodes at index 0. -/
def tcorNormalize (o : Options) (t : Node) (p : List Node × List Node) : Node :=
  t.withChildren (p.2 ++ t.childrenD.filter (isRowN o))

/-! Rule 5: rowsContainRequiredColumns. -/

/-- Number of cell children of a row (countCells). -/
def countCells (o : Options) (r : Node) : Nat :=
  (r.childrenD.filter (isCellN o)).length

/-- The column count of a table: maximum cell count over its row
children, with a minimum of 1 (the reduce with initial value 1). -/
def tableColumns (o : Options) (t : Node) : Nat :=
  (t.childrenD.filter (isRowN o)).foldl (fun c r => max c (countCells o r)) 1

/-- Payload entry for one offending row: the row, its non-cell children
and the add count columns - cells (JS number; never negative since
columns is a maximum over all rows). -/
structure RowFix where
  row : Node
  invalids : List Node
  add : Nat

/-- Flag one row: no violation when it has no non-cell children and
exactly columns cells, else the payload entry. -/
def rowFlag (o : Options) (columns : Nat) (r : Node) : Option RowFix :=
  let cells := countCells o r
  let invalids := r.childrenD.filter (fun c => !(isCellN o c))
  if invalids.isEmpty && (cells == columns) then none
  else some ⟨r, invalids, columns - cells⟩

/-- Validate of rowsContainRequiredColumns: the flagged rows when there
are any. -/
def rccValidate (o : Options) (t : Node) : Option (List RowFix) :=
  let flagged := (t.childrenD.filter (isRowN o)).filterMap (rowFlag o (tableColumns o t))
  if flagged.isEmpty then none else some flagged

/-- Conversion of one invalid (non-cell) child: a non-block child is
wrapped in a cell block (wrapBlockByKey), a block child is retyped to
the cell type (setNodeByKey). -/
def convertChild (o : Options) (c : Node) : Node :=
  if !(c.isBlockKind) then .elem .block o.typeCell [] [c]
  else c.retype o.typeCell

/-- Fix one flagged row: convert every non-cell child in place, then
insert Range(invalids.size, add).size = add - invalids.size synthesized
empty cells at consecutive indices invalids.size, invalids.size + 1, ...
(the source's sequence of insertNodeByKey at invalids.size + index). -/
def fixRow (o : Options) (columns : Nat) (r : Node) : Node :=
  let cells := countCells o r
  let invalids := r.childrenD.filter (fun c => !(isCellN o c))
  let converted := r.childrenD.map (fun c => if isCellN o c then c else convertChild o c)
  r.withChildren
    (converted.take invalids.length
      ++ List.replicate (columns - cells - invalids.length) (makeEmptyCell o)
      ++ converted.drop invalids.length)

/-- Normalize of rowsContainRequiredColumns: every flagged row of the
table is fixed in place; the flag condition is a function of the row's
value and the column count, so recomputing it per child replays the
source's by-key iteration over the payload. -/
def rccNormalize (o : Options) (t : Node) : Node :=
  let columns := tableColumns o t
  t.withChildren (t.childrenD.map (fun c =>
    if isRowN o c then
      match rowFlag o columns c with
      | none => c
      | some _ => fixRow o columns c
    else c))

/-! Rule 6: tableContainAlignData. -/

/-- Validate of tableContainAlignData.  The outer none models a thrown
TypeError: for a table with zero children, nodes.first() is undefined
and reading .nodes on it throws; for a table whose first child is a
text node, row.nodes is undefined and reading .size on it throws.
Otherwise the rule flags the table unless the stored align value has a
numeric length equal to the first child's child count (the JS loose
comparison align.length == columns is false whenever align.length is
undefined, since columns is always a number). -/
def tcadValidate (_o : Options) (t : Node) : Option (Option (Option DVal × Nat)) :=
  match t.childrenD with
  | [] => none
  | c :: _ =>
    match c.childrenQ with
    | none => none
    | some cs =>
      let raw := getAlignRaw t.dataD
      if alignLengthRaw raw == some cs.length then some none
      else some (some (raw, cs.length))

/-- Normalize of tableContainAlignData: set the table's data to the old
data with the align key replaced by createAlign(columns, oldAlign)
(setNodeByKey with Object.assign of the old data). -/
def tcadNormalize (t : Node) (p : Option DVal × Nat) : Node :=
  t.withData (assignKey t.dataD "align" (.arr (createAlign p.2 p.1)))

/-! The rule engine.  The schema lists the six rules in the order of
makeSchema; one engine step rewrites the first node (in document
preorder) at which the first rule in that order fires, applying the
rule's normalize locally.  The outer Option models a JS exception
escaping from a validate call (only tableContainAlignData can throw);
the inner Option is none when nothing fires (the tree is at a
fixpoint). -/

/-- One attempt at a single node: try the six rules in makeSchema order;
some (some n) is the rewritten node, some none means every matching
rule's validate reported no violation, none models a thrown error. -/
def stepNode (o : Options) (n : Node) : Option (Option Node) :=
  match (if cellMatch o n then cellValidate n else none) with
  | some _ => some (some (cellNormalize n))
  | none =>
  match (if cwtMatch o n then cwtValidate o n else none) with
  | some _ => some (some (cwtNormalize o n))
  | none =>
  match (if rwtMatch o n then rwtValidate o n else none) with
  | some _ => some (some (rwtNormalize o n))
  | none =>
  match (if tableMatch o n then tcorValidate o n else none) with
  | some p => some (some (tcorNormalize o n p))
  | none =>
  match (if tableMatch o n then rccValidate o n else none) with
  | some _ => some (some (rccNormalize o n))
  | none =>
  if tableMatch o n then
    match tcadValidate o n with
    | none => none
    | some none => some none
    | some (some p) => some (some (tcadNormalize n p))
  else some none

mutual

/-- One engine step over a whole tree: rewrite at the root if a rule
fires there, else recurse into the children left to right. -/
def stepTree (o : Options) (n : Node) : Option (Option Node) :=
  match stepNode o n with
  | none => none
  | some (some n2) => some (some n2)
  | some none =>
    match n with
    | .text _ => some none
    | .elem k ty d cs =>
      match stepChildren o cs with
      | none => none
      | some none => some none
      | some (some cs2) => some (some (.elem k ty d cs2))

/-- One engine step over a list of sibling subtrees: rewrite inside the
first subtree in which a rule fires. -/
def stepChildren (o : Options) (l : List Node) : Option (Option (List Node)) :=
  match l with
  | [] => some none
  | c :: cs =>
    match stepTree o c with
    | none => none
    | some (some c2) => some (some (c2 :: cs))
    | some none =>
      match stepChildren o cs with
      | none => none
      | some none => some none
      | some (some cs2) => some (some (c :: cs2))

end

/-- Run the engine to its fixpoint with the given fuel: some t is the
tree at which no rule fires any more; none means the fuel ran out or a
validate threw. -/
def normalizeFix (o : Options) : Nat → Node → Option Node
  | 0, _ => none
  | fuel + 1, t =>
    match stepTree o t with
    | none => none
    | some none => some t
    | some (some t2) => normalizeFix o fuel t2

mutual

/-- Every node of a tree, the root included, in document preorder. -/
def allNodes : Node → List Node
  | .text s => [.text s]
  | .elem k ty d cs => .elem k ty d cs :: allNodesList cs

/-- Every node of a forest in document preorder. -/
def allNodesList : List Node → List Node
  | [] => []
  | c :: cs => allNodes c ++ allNodesList cs

end

/-- A node is valid for the schema when every rule whose match holds on
it reports no violation (for the alignment rule: evaluates without
throwing and reports no violation). -/
def nodeValid (o : Options) (n : Node) : Prop :=
  (cellMatch o n → cellValidate n = none)
  ∧ (cwtMatch o n → cwtValidate o n = none)
  ∧ (rwtMatch o n → rwtValidate o n = none)
  ∧ (tableMatch o n →
      tcorValidate o n = none
      ∧ rccValidate o n = none
      ∧ tcadValidate o n = some none)

/-! The navigation and mutation commands.  TablePosition, createAlign
and moveSelectionBy are required by the sources but their files are not
among them; they are modelled from the spec. -/

/-- Modelled from the spec: TablePosition, the position resolver (the
file src/TablePosition.js is not among the sources).  It holds the
located enclosing table and the row and column indices of the selection
inside it. -/
structure TablePosition where
  table : Node
  rowIndex : Nat
  colIndex : Nat

/-- Modelled from the spec: getColumnIndex returns the resolver's
current column index. -/
def TablePosition.getColumnIndex (p : TablePosition) : Nat := p.colIndex

/-- Modelled from the spec: getWidth is the table's column count, the
widest row's cell count. -/
def TablePosition.getWidth (o : Options) (p : TablePosition) : Nat :=
  (p.table.childrenD.filter (isRowN o)).foldl (fun c r => max c (countCells o r)) 0

/-- Modelled from the spec: the number of rows of the enclosing table. -/
def TablePosition.numRows (o : Options) (p : TablePosition) : Nat :=
  (p.table.childrenD.filter (isRowN o)).length

/-- Modelled from the spec: isFirstRow compares the row's index within
the table's row sequence to 0. -/
def TablePosition.isFirstRow (p : TablePosition) : Bool := p.rowIndex == 0

/-- Modelled from the spec: isLastRow compares the row's index within
the table's row sequence to the last index. -/
def TablePosition.isLastRow (o : Options) (p : TablePosition) : Bool :=
  p.rowIndex == p.numRows o - 1

/-- JS array element assignment a[i] = v for an in-bounds index (every
use in the claims is in bounds; an out-of-bounds JS assignment would
instead grow the array). -/
def listSetAt (l : List Align) (i : Nat) (v : Align) : List Align := l.set i v

/-- setColumnAlign (src/dist/changes/setColumnAlign.js): resolve the
position, default the column index to the resolver's current column,
build newAlign = createAlign(getWidth(), data.get align) with position
at set to align, then setNodeByKey the table with
data: { align: Object.assign(table.data.toJS(), { align: newAlign }) } —
note the value stored under the align key is the Object.assign result,
an object, with the new vector nested inside it. -/
def setColumnAlign (o : Options) (pos : TablePosition) (align : Align)
    (at? : Option Nat) : Node :=
  let table := pos.table
  let atIdx := at?.getD pos.getColumnIndex
  let newAlign := listSetAt (createAlign (pos.getWidth o) (getAlignRaw table.dataD)) atIdx align
  table.withData [("align", .obj (assignKey table.dataD "align" (.arr newAlign)))]

/-- Modelled from the spec: moveSelectionBy (the file
src/changes/moveSelectionBy.js is not among the sources): reposition
the selection at the row offset by y and the column offset by x. -/
def moveSelectionBy (x y : Int) (row col : Int) : Int × Int :=
  (row + y, col + x)

/-- onUpDown (the up/down navigation handler): direction is -1 for the
UpArrow key and +1 otherwise; at the first row moving up or the last
row moving down the change is returned untouched without preventing the
default; otherwise the default is prevented and the selection moves by
one row.  The Bool result is whether preventDefault was called; the
pair is the selection's (row, column) after the handler. -/
def onUpDown (o : Options) (key : String) (p : TablePosition) : Bool × Int × Int :=
  let direction : Int := if key == "UpArrow" then -1 else 1
  if (p.isFirstRow && direction == -1) || (p.isLastRow o && direction == 1) then
    (false, ((p.rowIndex : Int), (p.colIndex : Int)))
  else
    (true, moveSelectionBy 0 (if key == "UpArrow" then -1 else 1) p.rowIndex p.colIndex)

/-! Observers and concrete fixtures used in the statements below. -/

/-- The string of a text node, none for elements. -/
def Node.textOf : Node → Option String
  | .text s => some s
  | _ => none

/-- The string of a node's first child when that child is a text node
(used to observe where synthesized empty cells land in a row). -/
def Node.headText : Node → Option String
  | .elem _ _ _ (.text s :: _) => some s
  | _ => none

/-- A cell block holding one text node. -/
def mkCell (s : String) : Node := .elem .block "cell" [] [.text s]

/-- A row block with the given children. -/
def mkRow (cs : List Node) : Node := .elem .block "row" [] cs

/-- A table block with the given data and children. -/
def mkTable (d : Data) (rs : List Node) : Node := .elem .block "table" d rs

/-- A paragraph block holding one text node. -/
def mkPara (s : String) : Node := .elem .block "p" [] [.text s]

/-- C7 counterexample fixture: align vector of length 1, first row with
one cell and one paragraph (cell count 1, child count 2). -/
def tbl7 : Node := mkTable [("align", .arr [.default])] [mkRow [mkCell "x", mkPara "q"]]

/-- C7 witness fixture: a well-formed 1-row, 2-column table. -/
def tblW7 : Node := mkTable [("align", .arr [.default, .default])] [mkRow [mkCell "x", mkCell "y"]]

/-- C3 fixture: a 2-column table with alignment [left, left]. -/
def tX : Node := mkTable [("align", .arr [.left, .left])] [mkRow [mkCell "x", mkCell "y"]]

/-- C3 fixture: a resolved selection in tX at row 0, column 1. -/
def posX : TablePosition := ⟨tX, 0, 1⟩

/-- C8 counterexample fixture: a cell whose first child is a text node
and whose second child is a paragraph block with text content. -/
def cell8 : Node := .elem .block "cell" [] [.text "a", mkPara "x"]

/-- C8 witness fixture: a cell with two paragraph children. -/
def cellW8 : Node := .elem .block "cell" [] [mkPara "u", mkPara "v"]

/-- C4 fixture: ragged table, row 0 with three cells, row 1 with one. -/
def tbl4 : Node :=
  mkTable [("align", .arr [.default, .default, .default])]
    [mkRow [mkCell "1", mkCell "2", mkCell "3"], mkRow [mkCell "b"]]

/-- C5 fixture: a document whose children are two orphan cells with no
row or table ancestor. -/
def doc5 : Node := .elem .document "" [] [mkCell "a", mkCell "b"]

/-- The tree the engine actually produces from doc5: each orphan cell
wrapped in its own row, each row wrapped in its own table. -/
def doc5fix : Node :=
  .elem .document "" []
    [mkTable [("align", .arr [.default])] [mkRow [mkCell "a"]],
     mkTable [("align", .arr [.default])] [mkRow [mkCell "b"]]]

/-- C1 witness fixture: a well-formed 1 by 1 table. -/
def tV : Node := mkTable [("align", .arr [.default])] [mkRow [mkCell ""]]

/-! The per-rule invariants, stated declaratively from the spec. -/

/-- Invariant of rule 1: the cell has no block-kind children. -/
def cellInvariant (n : Node) : Prop :=
  ∀ c ∈ n.childrenD, c.isBlockKind = false

/-- Invariant of rule 2: the node has no direct cell children. -/
def cwtInvariant (o : Options) (n : Node) : Prop :=
  ∀ c ∈ n.childrenD, isCellN o c = false

/-- Invariant of rule 3: the node has no direct row children. -/
def rwtInvariant (o : Options) (n : Node) : Prop :=
  ∀ c ∈ n.childrenD, isRowN o c = false

/-- Invariant of rule 4: the table's children are rows, at least one. -/
def tcorInvariant (o : Options) (n : Node) : Prop :=
  n.childrenD ≠ [] ∧ ∀ c ∈ n.childrenD, isRowN o c = true

/-- Invariant of rule 5: every row child contains only cells and has
exactly the table's column count of them. -/
def rccInvariant (o : Options) (n : Node) : Prop :=
  ∀ r ∈ n.childrenD.filter (isRowN o),
    (∀ c ∈ r.childrenD, isCellN o c = true) ∧ countCells o r = tableColumns o n

/-- Invariant of rule 6, relative to the rule's own width notion (the
first child's child count, see the C7 analysis): the first child exists,
has a readable child list, and the stored align value is an array whose
length equals that child count. -/
def tcadInvariant (n : Node) : Prop :=
  ∃ c rest cs, n.childrenD = c :: rest ∧ c.childrenQ = some cs
    ∧ alignLengthRaw (getAlignRaw n.dataD) = some cs.length

/-! Helper lemmas shared by the claim theorems. -/

/-- A node with an observable type is an element, so its nodes property
reads back its child list. -/
theorem childrenQ_of_tyQ {n : Node} {ty : String} (h : n.tyQ = some ty) :
    n.childrenQ = some n.childrenD := by
  cases n with
  | text s => simp [Node.tyQ] at h
  | elem k ty2 d cs =>
    cases k with
    | document => simp [Node.tyQ] at h
    | block => rfl
    | inl => rfl

/-- Characterization of rule 4's validate: no violation exactly when
the table has at least one child and every child is a row. -/
theorem tcorValidate_none_iff (o : Options) (t : Node) :
    tcorValidate o t = none ↔ (t.childrenD ≠ [] ∧ ∀ c ∈ t.childrenD, isRowN o c = true) := by
  by_cases hI : t.childrenD.filter (fun c => !(isRowN o c)) = []
  · by_cases hl : t.childrenD = []
    · simp [tcorValidate, hl]
    · have hall : ∀ c ∈ t.childrenD, isRowN o c = true := by
        intro c hc
        have := List.filter_eq_nil_iff.mp hI c hc
        simpa using this
      have h0 : ¬ ((0 : Nat) = t.childrenD.length) := by
        intro h
        exact hl (List.length_eq_zero.mp h.symm)
      simp only [tcorValidate, hI]
      simp [h0]
      exact ⟨hl, hall⟩
  · have hnotall : ¬ ∀ c ∈ t.childrenD, isRowN o c = true := by
      intro hall
      exact hI (List.filter_eq_nil_iff.mpr (fun c hc => by simp [hall c hc]))
    cases hfe : t.childrenD.filter (fun c => !(isRowN o c)) with
    | nil => exact absurd hfe hI
    | cons a as =>
      have ha : a ∈ t.childrenD.filter (fun c => !(isRowN o c)) := by
        rw [hfe]
        exact List.mem_cons_self _ _
      have ha2 := List.mem_filter.mp ha
      simp only [tcorValidate, hfe]
      simp
      intro _
      exact ⟨a, ha2.1, by simpa using ha2.2⟩

/-- Characterization of one row's flag in rule 5: not flagged exactly
when the row contains only cells and exactly cols of them. -/
theorem rowFlag_none_iff (o : Options) (cols : Nat) (r : Node) :
    rowFlag o cols r = none
      ↔ ((∀ c ∈ r.childrenD, isCellN o c = true) ∧ countCells o r = cols) := by
  by_cases hI : r.childrenD.filter (fun c => !(isCellN o c)) = []
  · have hall : ∀ c ∈ r.childrenD, isCellN o c = true := by
      intro c hc
      have := List.filter_eq_nil_iff.mp hI c hc
      simpa using this
    by_cases hc : countCells o r = cols
    · simp [rowFlag, hI, hc]
      exact hall
    · have hb : (countCells o r == cols) = false := by simp [hc]
      simp [rowFlag, hI, hb]
      intro _
      exact hc
  · cases hfe : r.childrenD.filter (fun c => !(isCellN o c)) with
    | nil => exact absurd hfe hI
    | cons a as =>
      have ha : a ∈ r.childrenD.filter (fun c => !(isCellN o c)) := by
        rw [hfe]
        exact List.mem_cons_self _ _
      have ha2 := List.mem_filter.mp ha
      have hfa : isCellN o a = false := by simpa using ha2.2
      simp only [rowFlag, hfe]
      simp
      intro hall2 _
      exact absurd (hall2 a ha2.1) (by simp [hfa])

/-- Characterization of rule 5's validate: no violation exactly when no
row child is flagged. -/
theorem rccValidate_none_iff (o : Options) (t : Node) :
    rccValidate o t = none
      ↔ ∀ r ∈ t.childrenD.filter (isRowN o), rowFlag o (tableColumns o t) r = none := by
  have hmain : rccValidate o t = none
      ↔ (t.childrenD.filter (isRowN o)).filterMap (rowFlag o (tableColumns o t)) = [] := by
    simp only [rccValidate]
    cases hfe : (t.childrenD.filter (isRowN o)).filterMap (rowFlag o (tableColumns o t)) with
    | nil => simp
    | cons a as => simp
  rw [hmain]
  exact List.filterMap_eq_nil_iff

/-- The lengths of a filter and of the complementary filter add up to
the length of the list. -/
theorem length_filter_add_length_not {α : Type} (p : α → Bool) (l : List α) :
    (l.filter p).length + (l.filter (fun a => !p a)).length = l.length := by
  induction l with
  | nil => rfl
  | cons a as ih =>
    cases hpa : p a <;> simp [List.filter_cons, hpa] <;> omega

/-- Looking up a different key is unchanged by the in-place update
branch of assignKey. -/
theorem lookup_map_setKey (d : Data) (k k2 : String) (v : DVal) (h : k2 ≠ k) :
    (d.map (fun kv => if kv.1 == k then (k, v) else kv)).lookup k2 = d.lookup k2 := by
  induction d with
  | nil => rfl
  | cons kv rest ih =>
    obtain ⟨k1, v1⟩ := kv
    have hb3 : (k2 == k) = false := beq_eq_false_iff_ne.mpr h
    by_cases hk : k1 = k
    · have hb2 : (k2 == k1) = false := beq_eq_false_iff_ne.mpr (fun e => h (e.trans hk))
      simp [List.lookup_cons, hk, hb2, hb3]
      simpa using ih
    · cases hb2 : (k2 == k1) with
      | true => simp [List.lookup_cons, hk, hb2]
      | false =>
        simp [List.lookup_cons, hk, hb2]
        simpa using ih

/-- Looking up a different key is unchanged by appending a binding. -/
theorem lookup_append_single (d : Data) (k k2 : String) (v : DVal) (h : k2 ≠ k) :
    (d ++ [(k, v)]).lookup k2 = d.lookup k2 := by
  induction d with
  | nil =>
    have hb : (k2 == k) = false := beq_eq_false_iff_ne.mpr h
    simp [List.lookup_cons, hb]
  | cons kv rest ih =>
    obtain ⟨k1, v1⟩ := kv
    cases hb : (k2 == k1) <;> simp [List.lookup_cons, hb, ih]

/-- assignKey leaves every other key of the data map unchanged. -/
theorem assignKey_lookup_ne (d : Data) (k k2 : String) (v : DVal) (h : k2 ≠ k) :
    (assignKey d k v).lookup k2 = d.lookup k2 := by
  unfold assignKey
  split
  · exact lookup_map_setKey d k k2 v h
  · exact lookup_append_single d k k2 v h

/-- The in-place update branch of assignKey stores the value when the
key occurs in the map. -/
theorem lookup_map_setKey_self (d : Data) (k : String) (v : DVal)
    (hs : (d.lookup k).isSome = true) :
    (d.map (fun kv => if kv.1 == k then (k, v) else kv)).lookup k = some v := by
  induction d with
  | nil => simp [List.lookup_nil] at hs
  | cons kv rest ih =>
    obtain ⟨k1, v1⟩ := kv
    cases hb : (k1 == k) with
    | true =>
      have hk : k1 = k := beq_iff_eq.mp hb
      simp [List.lookup_cons, hk]
    | false =>
      have hk : ¬ (k1 = k) := beq_eq_false_iff_ne.mp hb
      have hb2 : (k == k1) = false := beq_eq_false_iff_ne.mpr (fun e => hk e.symm)
      have hs2 : (rest.lookup k).isSome = true := by
        simpa [List.lookup_cons, hb2] using hs
      simp [List.lookup_cons, hk, hb2]
      simpa using ih hs2

/-- Appending a binding for an absent key makes it found. -/
theorem lookup_append_self (d : Data) (k : String) (v : DVal)
    (hs : d.lookup k = none) :
    (d ++ [(k, v)]).lookup k = some v := by
  induction d with
  | nil => simp [List.lookup_cons]
  | cons kv rest ih =>
    obtain ⟨k1, v1⟩ := kv
    cases hb : (k == k1) with
    | true => simp [List.lookup_cons, hb] at hs
    | false =>
      have hs2 : rest.lookup k = none := by simpa [List.lookup_cons, hb] using hs
      simp [List.lookup_cons, hb, ih hs2]

/-- assignKey stores the value under the given key. -/
theorem assignKey_lookup_self (d : Data) (k : String) (v : DVal) :
    (assignKey d k v).lookup k = some v := by
  unfold assignKey
  split
  case isTrue hs => exact lookup_map_setKey_self d k v hs
  case isFalse hs =>
    exact lookup_append_self d k v (Option.not_isSome_iff_eq_none.mp hs)

/-! Claim theorems. -/

/-- C6: for every table node whose children include non-row nodes, or
all of whose children are non-row (including zero children), the rule
tablesContainOnlyRows flags it; its normalize removes every non-row
child and inserts one synthesized empty row at index 0 exactly when the
removal would leave zero children; in particular an empty table ends
with one synthesized row. -/
theorem c6_table_content_rule (o : Options) (t : Node) (_ht : tableMatch o t = true) :
    (tcorValidate o t = none ↔ (t.childrenD ≠ [] ∧ ∀ c ∈ t.childrenD, isRowN o c = true))
    ∧ (∀ p, tcorValidate o t = some p →
        tcorNormalize o t p
          = t.withChildren
              ((if (t.childrenD.filter (isRowN o)).isEmpty then [makeEmptyRow o] else [])
                ++ t.childrenD.filter (isRowN o))) := by
  refine ⟨tcorValidate_none_iff o t, ?_⟩
  intro p hp
  have hlen := length_filter_add_length_not (isRowN o) t.childrenD
  have hiff : (((t.childrenD.filter (fun c => !(isRowN o c))).length == t.childrenD.length) = true)
      ↔ (t.childrenD.filter (isRowN o)).isEmpty = true := by
    rw [beq_iff_eq, List.isEmpty_iff, ← List.length_eq_zero]
    omega
  simp only [tcorValidate] at hp
  by_cases hb : ((t.childrenD.filter (fun c => !(isRowN o c))).length == t.childrenD.length) = true
  · rw [if_pos hb] at hp
    rw [if_neg (by simp : ¬ (((t.childrenD.filter (fun c => !(isRowN o c))).isEmpty
      && ([makeEmptyRow o] : List Node).isEmpty) = true))] at hp
    have hp2 := Option.some.inj hp
    subst hp2
    simp only [tcorNormalize]
    rw [if_pos (hiff.mp hb)]
  · rw [if_neg hb] at hp
    by_cases hIe : (t.childrenD.filter (fun c => !(isRowN o c))).isEmpty = true
    · rw [if_pos (by simp [hIe])] at hp
      exact absurd hp (by simp)
    · rw [if_neg (by simp [hIe])] at hp
      have hp2 := Option.some.inj hp
      subst hp2
      simp only [tcorNormalize]
      rw [if_neg (fun he => hb (hiff.mpr he))]

/-- Witness for C6 at the empty table: it is flagged with an empty
removal list and one row to add, and normalize yields the table with
exactly the synthesized empty row. -/
theorem c6_table_content_witness :
    tableMatch stdOpts (mkTable [] []) = true
    ∧ tcorValidate stdOpts (mkTable [] []) = some ([], [makeEmptyRow stdOpts])
    ∧ tcorNormalize stdOpts (mkTable [] []) ([], [makeEmptyRow stdOpts])
        = (mkTable [] []).withChildren [makeEmptyRow stdOpts] := by
  refine ⟨rfl, rfl, ?_⟩
  have h := (c6_table_content_rule stdOpts (mkTable [] []) rfl).2 ([], [makeEmptyRow stdOpts]) rfl
  simpa using h

/-- A node with an observable type is an element, so replacing its data
is observable through dataD. -/
theorem withData_dataD {n : Node} {ty : String} (h : n.tyQ = some ty) (d : Data) :
    (n.withData d).dataD = d := by
  cases n with
  | text s => simp [Node.tyQ] at h
  | elem k ty2 d2 cs => rfl

/-- C7 counterexample: in tbl7 the alignment vector has length 1, equal
to the first row's cell count (1), yet tableContainAlignData flags the
table with columns 2, because it computes the width as the first
child's total child count, not its cell count. -/
theorem c7_width_not_cell_count :
    countCells stdOpts (mkRow [mkCell "x", mkPara "q"]) = 1
    ∧ alignLengthRaw (getAlignRaw tbl7.dataD) = some 1
    ∧ tbl7.childrenD = [mkRow [mkCell "x", mkPara "q"]]
    ∧ tcadValidate stdOpts tbl7 = some (some (some (.arr [.default]), 2)) :=
  ⟨rfl, rfl, rfl, rfl⟩

/-- C7 amended: for a table whose first child has a readable child
list, the rule flags it exactly when the stored align value is not an
array whose length equals the first child's total child count (the
rule's width notion); normalize then replaces the align entry by
createAlign of that width applied to the old value — preserving the old
array's tags by position and filling the rest with the default tag —
and leaves every other data key unchanged. -/
theorem c7_alignment_rule_amended (o : Options) (t : Node) (ht : tableMatch o t = true)
    (c : Node) (rest cs : List Node)
    (hc : t.childrenD = c :: rest) (hcs : c.childrenQ = some cs) :
    (tcadValidate o t = some none
       ↔ alignLengthRaw (getAlignRaw t.dataD) = some cs.length)
    ∧ (∀ p, tcadValidate o t = some (some p) →
         p = (getAlignRaw t.dataD, cs.length)
         ∧ getAlignRaw (tcadNormalize t p).dataD
             = some (.arr (createAlign cs.length (getAlignRaw t.dataD)))
         ∧ ∀ k, k ≠ "align" → (tcadNormalize t p).dataD.lookup k = t.dataD.lookup k)
    ∧ (∀ (w : Nat) (l : List Align), (createAlign w (some (.arr l))).length = w
         ∧ ∀ i, i < w →
             (createAlign w (some (.arr l))).getD i .default = l.getD i .default) := by
  have htq : t.tyQ = some o.typeTable := beq_iff_eq.mp ht
  have hval : tcadValidate o t
      = (if (alignLengthRaw (getAlignRaw t.dataD) == some cs.length) = true then some none
         else some (some (getAlignRaw t.dataD, cs.length))) := by
    simp only [tcadValidate, hc, hcs]
  refine ⟨?_, ?_, ?_⟩
  · rw [hval]
    by_cases hal : alignLengthRaw (getAlignRaw t.dataD) = some cs.length
    · rw [if_pos (beq_iff_eq.mpr hal)]
      simp [hal]
    · rw [if_neg (fun hb => hal (beq_iff_eq.mp hb))]
      simp [hal]
  · intro p hp
    rw [hval] at hp
    by_cases hal : alignLengthRaw (getAlignRaw t.dataD) = some cs.length
    · rw [if_pos (beq_iff_eq.mpr hal)] at hp
      exact absurd (Option.some.inj hp) (by simp)
    · rw [if_neg (fun hb => hal (beq_iff_eq.mp hb))] at hp
      have hp2 := Option.some.inj hp
      have hp3 := Option.some.inj hp2
      refine ⟨hp3.symm, ?_, ?_⟩
      · unfold tcadNormalize getAlignRaw
        rw [withData_dataD htq]
        rw [assignKey_lookup_self]
        rw [← hp3]
        rfl
      · intro k hk
        unfold tcadNormalize
        rw [withData_dataD htq]
        exact assignKey_lookup_ne t.dataD "align" k _ hk
  · intro w l
    constructor
    · simp [createAlign]
    · intro i hi
      simp only [createAlign]
      rw [List.getD_eq_getElem?_getD, List.getElem?_map, List.getElem?_range hi]
      rfl

/-- Witness for C7 at a well-formed 1 by 2 table: validate reports no
violation since the align array's length matches the first child's
child count. -/
theorem c7_alignment_rule_witness :
    tableMatch stdOpts tblW7 = true ∧ tcadValidate stdOpts tblW7 = some none :=
  ⟨rfl, (c7_alignment_rule_amended stdOpts tblW7 rfl (mkRow [mkCell "x", mkCell "y"])
      [] [mkCell "x", mkCell "y"] rfl rfl).1.mpr rfl⟩

/-- C10 counterexample: a table with one child on which validate still
fails, because the child is a text node whose nodes property is
undefined; this contradicts totality for every table with at least one
child. -/
theorem c10_text_first_child_crash :
    (mkTable [] [.text "x"]).childrenD.length = 1
    ∧ tcadValidate stdOpts (mkTable [] [.text "x"]) = none :=
  ⟨rfl, rfl⟩

/-- C10 amended: the alignment rule's validate fails exactly when the
table has zero children or its first child is a text node (reading the
first child's node list is unguarded in both directions); for every
table whose first child is a non-text node, validate totally evaluates
to no violation or a violation payload. -/
theorem c10_align_validate_domain (o : Options) (t : Node) (_ht : tableMatch o t = true) :
    (tcadValidate o t = none
       ↔ (t.childrenD = [] ∨ ∃ s rest, t.childrenD = Node.text s :: rest))
    ∧ (∀ c rest, t.childrenD = c :: rest → (∀ s, c ≠ Node.text s) →
        ∃ r, tcadValidate o t = some r) := by
  cases hl : t.childrenD with
  | nil =>
    constructor
    · simp only [tcadValidate, hl]
      simp
    · intro c rest he _
      exact absurd he (by simp)
  | cons c rest =>
    cases c with
    | text s =>
      constructor
      · simp only [tcadValidate, hl, Node.childrenQ]
        simp
      · intro c2 rest2 he hne
        have : c2 = Node.text s := ((List.cons.inj he).1).symm
        exact absurd this (hne s)
    | elem k ty d cs =>
      constructor
      · constructor
        · intro h
          simp only [tcadValidate, hl, Node.childrenQ] at h
          by_cases hb : (alignLengthRaw (getAlignRaw t.dataD) == some cs.length) = true
          · rw [if_pos hb] at h
            exact absurd h (by simp)
          · rw [if_neg hb] at h
            exact absurd h (by simp)
        · intro h
          rcases h with h | ⟨s2, rest2, h⟩
          · exact absurd h (by simp)
          · exact absurd ((List.cons.inj h).1) (by simp)
      · intro c2 rest2 _ _
        simp only [tcadValidate, hl, Node.childrenQ]
        by_cases hb : (alignLengthRaw (getAlignRaw t.dataD) == some cs.length) = true
        · exact ⟨none, by rw [if_pos hb]⟩
        · exact ⟨some (getAlignRaw t.dataD, cs.length), by rw [if_neg hb]⟩

/-- Witness for C10 at the empty table: validate fails (the unguarded
read of the first child), via the amended characterization. -/
theorem c10_align_validate_witness :
    tcadValidate stdOpts (mkTable [] []) = none :=
  (c10_align_validate_domain stdOpts (mkTable [] []) rfl).1.mpr (Or.inl rfl)

/-- C3: evaluation of setColumnAlign at a concrete table with
alignment [left, left], selected column 1, new tag center.  The code
computes the correct new vector [left, center], but stores it nested:
the table's data becomes align ↦ an object holding the old data with
the vector inside, so the table no longer has an alignment vector at
all (its length reads as undefined). -/
theorem c3_setColumnAlign_nests_align :
    listSetAt (createAlign (posX.getWidth stdOpts) (getAlignRaw tX.dataD)) 1 .center
      = [Align.left, Align.center]
    ∧ (setColumnAlign stdOpts posX .center none).dataD
        = [("align", .obj [("align", .arr [Align.left, Align.center])])]
    ∧ alignLengthRaw (getAlignRaw (setColumnAlign stdOpts posX .center none).dataD) = none :=
  ⟨rfl, rfl, rfl⟩

/-- A block-kind node is an element, so replacing its children is
observable through childrenD. -/
theorem withChildren_childrenD_block {n : Node} (h : n.isBlockKind = true)
    (cs : List Node) : (n.withChildren cs).childrenD = cs := by
  cases n with
  | text s => simp [Node.isBlockKind] at h
  | elem k ty d cs2 => rfl

/-- A node with an observable type is an element, so replacing its
children is observable through childrenD. -/
theorem withChildren_childrenD {n : Node} {ty : String} (h : n.tyQ = some ty)
    (cs : List Node) : (n.withChildren cs).childrenD = cs := by
  cases n with
  | text s => simp [Node.tyQ] at h
  | elem k ty2 d cs2 => rfl

/-- Splitting the cell-unwrap traversal at a block child: the promoted
grandchildren of a block are transformed with the index equal to the
number of block children strictly before it in the cell. -/
theorem cellNormChildren_split (b : Node) (hb : b.isBlockKind = true) :
    ∀ (l1 : List Node) (l2 : List Node) (bi : Nat),
      cellNormChildren (l1 ++ b :: l2) bi
        = cellNormChildren l1 bi
          ++ b.childrenD.map (unwrapGrand (bi + l1.countP (fun c => c.isBlockKind)))
          ++ cellNormChildren l2 (bi + l1.countP (fun c => c.isBlockKind) + 1) := by
  intro l1
  induction l1 with
  | nil =>
    intro l2 bi
    simp [cellNormChildren, hb]
  | cons a l1 ih =>
    intro l2 bi
    cases ha : a.isBlockKind with
    | false =>
      have hcp : (a :: l1).countP (fun c => c.isBlockKind) = l1.countP (fun c => c.isBlockKind) := by
        simp [List.countP_cons, ha]
      rw [hcp]
      simp only [List.cons_append, cellNormChildren, ha]
      simp only [Bool.false_eq_true, if_false, List.append_eq]
      rw [ih l2 bi]
      simp [cellNormChildren, ha]
    | true =>
      have hcp : (a :: l1).countP (fun c => c.isBlockKind)
          = l1.countP (fun c => c.isBlockKind) + 1 := by
        simp [List.countP_cons, ha]
      rw [hcp]
      simp only [List.cons_append, cellNormChildren, ha, if_true]
      simp only [List.append_eq]
      rw [ih l2 (bi + 1)]
      simp only [List.append_assoc, List.append_cancel_left_eq]
      have h1 : bi + 1 + l1.countP (fun c => c.isBlockKind)
          = bi + (l1.countP (fun c => c.isBlockKind) + 1) := by omega
      rw [h1]

/-- unwrapGrand never creates a block node. -/
theorem unwrapGrand_isBlockKind (k : Nat) (g : Node) :
    (unwrapGrand k g).isBlockKind = g.isBlockKind := by
  unfold unwrapGrand
  split
  · cases g <;> rfl
  · rfl

/-- If no block child of the cell has block grandchildren, the unwrap
traversal leaves no block nodes. -/
theorem cellNormChildren_no_blocks :
    ∀ (l : List Node) (bi : Nat),
      (∀ c ∈ l, c.isBlockKind = true → ∀ g ∈ c.childrenD, g.isBlockKind = false) →
      ∀ x ∈ cellNormChildren l bi, x.isBlockKind = false := by
  intro l
  induction l with
  | nil => intro bi _ x hx; simp [cellNormChildren] at hx
  | cons c cs ih =>
    intro bi h x hx
    cases hc : c.isBlockKind with
    | true =>
      simp only [cellNormChildren, hc, if_true] at hx
      rcases List.mem_append.mp hx with hx | hx
      · obtain ⟨g, hg, rfl⟩ := List.mem_map.mp hx
        rw [unwrapGrand_isBlockKind]
        exact h c (List.mem_cons_self _ _) hc g hg
      · exact ih (bi + 1) (fun c2 hc2 => h c2 (List.mem_cons_of_mem _ hc2)) x hx
    | false =>
      simp only [cellNormChildren, hc, Bool.false_eq_true, if_false] at hx
      rcases List.mem_cons.mp hx with rfl | hx
      · exact hc
      · exact ih bi (fun c2 hc2 => h c2 (List.mem_cons_of_mem _ hc2)) x hx

/-- C8 counterexample: a cell [text a, paragraph [text x]].  The
paragraph is not the first child and its content is text, so the claim
demands a prepended newline; the code indexes by position among the
block children only, the paragraph has block index 0, and no newline is
prepended. -/
theorem c8_no_newline_after_text_child :
    (cellNormalize cell8).childrenD = [Node.text "a", Node.text "x"]
    ∧ "x" ≠ "\n" ++ "x" :=
  ⟨rfl, by decide⟩

/-- C8 amended: noBlocksWithinCell's normalize unwraps every block
child in place, promoting its children into the cell; a newline is
prepended to a promoted child exactly when it is a text node and the
unwrapped block is not the first among the cell's block children (its
index in the filtered block list is nonzero), regardless of the block's
position among all children.  When no block child has block
grandchildren, the resulting cell has no block children. -/
theorem c8_cell_unwrap_amended (o : Options) (n : Node) (hm : cellMatch o n = true) :
    ((cellNormalize n).childrenD = cellNormChildren n.childrenD 0)
    ∧ (∀ l1 b l2, n.childrenD = l1 ++ b :: l2 → b.isBlockKind = true →
        (cellNormalize n).childrenD
          = cellNormChildren l1 0
            ++ b.childrenD.map (unwrapGrand (l1.countP (fun c => c.isBlockKind)))
            ++ cellNormChildren l2 (l1.countP (fun c => c.isBlockKind) + 1))
    ∧ (∀ g, unwrapGrand 0 g = g)
    ∧ (∀ k s, k ≠ 0 → unwrapGrand k (Node.text s) = Node.text ("\n" ++ s))
    ∧ (∀ k g, g.textOf = none → unwrapGrand k g = g)
    ∧ ((∀ c ∈ n.childrenD, c.isBlockKind = true → ∀ g ∈ c.childrenD, g.isBlockKind = false) →
        ∀ x ∈ (cellNormalize n).childrenD, x.isBlockKind = false) := by
  have hbk : n.isBlockKind = true := (Bool.and_eq_true _ _ |>.mp hm).1
  have hcd : (cellNormalize n).childrenD = cellNormChildren n.childrenD 0 :=
    withChildren_childrenD_block hbk _
  refine ⟨hcd, ?_, ?_, ?_, ?_, ?_⟩
  · intro l1 b l2 he hbb
    rw [hcd, he]
    have h := cellNormChildren_split b hbb l1 l2 0
    rw [h]
    simp
  · intro g
    simp [unwrapGrand]
  · intro k s hk
    simp [unwrapGrand, hk]
  · intro k g hg
    unfold unwrapGrand
    split
    · cases g with
      | text s => simp [Node.textOf] at hg
      | elem k2 ty d cs => rfl
    · rfl
  · intro h x hx
    rw [hcd] at hx
    exact cellNormChildren_no_blocks n.childrenD 0 h x hx

/-- Witness for C8: in a cell [paragraph [text u], paragraph [text v]]
the second paragraph has block index 1, so its promoted text gets a
newline while the first does not. -/
theorem c8_cell_unwrap_witness :
    (cellNormalize cellW8).childrenD = [Node.text "u", Node.text ("\n" ++ "v")] := by
  have h := (c8_cell_unwrap_amended stdOpts cellW8 rfl).2.1 [mkPara "u"] (mkPara "v") [] rfl rfl
  rw [h]
  rfl

/-- Every converted child of a row is a cell: non-blocks are wrapped in
a cell block, blocks are retyped to the cell type. -/
theorem convertChild_isCell (o : Options) (c : Node) :
    isCellN o (convertChild o c) = true := by
  cases c with
  | text s => simp [convertChild, Node.isBlockKind, isCellN, Node.tyQ]
  | elem k ty d cs =>
    cases k <;> simp [convertChild, Node.isBlockKind, Node.retype, isCellN, Node.tyQ]

/-- C4 counterexample: in the ragged table (row 0 with three cells,
row 1 with one cell holding text b), normalize leaves the fixed row as
[empty, empty, b]: the synthesized empty cells are inserted at indices
0 and 1, before the existing cell, not appended at the end (which
would give [b, empty, empty]). -/
theorem c4_cells_not_appended :
    ((rccNormalize stdOpts tbl4).childrenD[1]?).map (fun r => r.childrenD.map Node.headText)
      = some [some "", some "", some "b"]
    ∧ [some "", some "", some "b"] ≠ [some "b", some "", some ""] :=
  ⟨rfl, by decide⟩

/-- C4 amended: for every flagged row the rule converts each non-cell
block child into a cell by retyping, wraps each non-block child in a
cell, and inserts max(0, width - cells - invalids) synthesized empty
cells consecutively starting at index invalids (the number of non-cell
children), not at the end of the row; when the converted children do
not overshoot the width, the fixed row has exactly width cells. -/
theorem c4_row_completion_amended (o : Options) (t : Node) (_ht : tableMatch o t = true) :
    (∀ r fx, isRowN o r = true → rowFlag o (tableColumns o t) r = some fx →
       fx.invalids = r.childrenD.filter (fun c => !(isCellN o c))
       ∧ (fixRow o (tableColumns o t) r).childrenD
           = (r.childrenD.map (fun c => if isCellN o c then c else convertChild o c)).take
               fx.invalids.length
             ++ List.replicate (tableColumns o t - countCells o r - fx.invalids.length)
                  (makeEmptyCell o)
             ++ (r.childrenD.map (fun c => if isCellN o c then c else convertChild o c)).drop
                  fx.invalids.length)
    ∧ (∀ c, c.isBlockKind = true → convertChild o c = c.retype o.typeCell)
    ∧ (∀ c, c.isBlockKind = false → convertChild o c = Node.elem .block o.typeCell [] [c])
    ∧ (∀ r, isRowN o r = true →
         countCells o r + (r.childrenD.filter (fun c => !(isCellN o c))).length
           ≤ tableColumns o t →
         countCells o (fixRow o (tableColumns o t) r) = tableColumns o t) := by
  refine ⟨?_, ?_, ?_, ?_⟩
  · intro r fx hr hfx
    have htq : r.tyQ = some o.typeRow := beq_iff_eq.mp hr
    simp only [rowFlag] at hfx
    split at hfx
    case isTrue hcond => exact absurd hfx (by simp)
    case isFalse hcond =>
      have hfx2 := Option.some.inj hfx
      subst hfx2
      refine ⟨rfl, ?_⟩
      simp only [fixRow]
      rw [withChildren_childrenD htq]
  · intro c hc
    simp [convertChild, hc]
  · intro c hc
    simp [convertChild, hc]
  · intro r hr hle
    have htq : r.tyQ = some o.typeRow := beq_iff_eq.mp hr
    have hpart := length_filter_add_length_not (isCellN o) r.childrenD
    set cols := tableColumns o t with hcols
    set conv := r.childrenD.map (fun c => if isCellN o c then c else convertChild o c) with hconv
    have hconvlen : conv.length = r.childrenD.length := by
      rw [hconv, List.length_map]
    have hconvcell : ∀ x ∈ conv, isCellN o x = true := by
      intro x hx
      rw [hconv] at hx
      obtain ⟨c, _, rfl⟩ := List.mem_map.mp hx
      by_cases hcc : isCellN o c = true
      · simp [hcc]
      · have hcc2 : isCellN o c = false := by
          cases hb : isCellN o c
          · rfl
          · exact absurd hb hcc
        simp [hcc2, convertChild_isCell]
    have hfix : (fixRow o cols r).childrenD
        = conv.take (r.childrenD.filter (fun c => !(isCellN o c))).length
          ++ List.replicate (cols - countCells o r
               - (r.childrenD.filter (fun c => !(isCellN o c))).length) (makeEmptyCell o)
          ++ conv.drop (r.childrenD.filter (fun c => !(isCellN o c))).length := by
      simp only [fixRow]
      rw [withChildren_childrenD htq]
    have hallcell : ∀ x ∈ (fixRow o cols r).childrenD, isCellN o x = true := by
      intro x hx
      rw [hfix] at hx
      rcases List.mem_append.mp hx with hx | hx
      · rcases List.mem_append.mp hx with hx | hx
        · exact hconvcell x (List.mem_of_mem_take hx)
        · rw [List.eq_of_mem_replicate hx]
          simp [isCellN, makeEmptyCell, Node.tyQ]
      · exact hconvcell x (List.mem_of_mem_drop hx)
    have hcount : countCells o (fixRow o cols r)
        = (fixRow o cols r).childrenD.length := by
      unfold countCells
      rw [List.filter_eq_self.mpr hallcell]
    rw [hcount, hfix]
    simp only [List.length_append, List.length_take, List.length_replicate, List.length_drop]
    unfold countCells at hle hpart ⊢
    omega

/-- Witness for C4: fixing the one-cell row of the ragged table yields
exactly width (3) cells. -/
theorem c4_row_completion_witness :
    countCells stdOpts (fixRow stdOpts (tableColumns stdOpts tbl4) (mkRow [mkCell "b"]))
      = tableColumns stdOpts tbl4 :=
  (c4_row_completion_amended stdOpts tbl4 rfl).2.2.2 (mkRow [mkCell "b"]) rfl (by decide)

/-- C9: for every resolved selection inside a table and an up or down
key, the handler leaves the change untouched and does not suppress the
default exactly when the selection is in the first row and the key is
up, or in the last row and the key is down; otherwise it suppresses the
default and moves the selection by one row in the pressed direction at
the same column. -/
theorem c9_up_down_navigation (o : Options) (p : TablePosition) (key : String)
    (hk : key = "UpArrow" ∨ key = "DownArrow") :
    (((onUpDown o key p).1 = false
        ∧ (onUpDown o key p).2 = ((p.rowIndex : Int), (p.colIndex : Int)))
      ↔ ((p.isFirstRow = true ∧ key = "UpArrow")
          ∨ (p.isLastRow o = true ∧ key = "DownArrow")))
    ∧ (¬ ((p.isFirstRow = true ∧ key = "UpArrow")
          ∨ (p.isLastRow o = true ∧ key = "DownArrow")) →
        (onUpDown o key p).1 = true
        ∧ (onUpDown o key p).2
            = ((p.rowIndex : Int) + (if key = "UpArrow" then (-1 : Int) else 1),
               (p.colIndex : Int))) := by
  rcases hk with rfl | rfl
  · cases hf : p.isFirstRow with
    | true =>
      constructor
      · simp [onUpDown, hf]
      · intro hno
        exact absurd (Or.inl ⟨rfl, rfl⟩) hno
    | false =>
      constructor
      · simp [onUpDown, moveSelectionBy, hf]
      · intro _
        simp [onUpDown, moveSelectionBy, hf]
  · cases hl : p.isLastRow o with
    | true =>
      constructor
      · simp [onUpDown, hl]
      · intro hno
        exact absurd (Or.inr ⟨rfl, rfl⟩) hno
    | false =>
      constructor
      · simp [onUpDown, moveSelectionBy, hl]
      · intro _
        simp [onUpDown, moveSelectionBy, hl]

/-- Witness for C9: at the first row, pressing up leaves the change
untouched (the handler declines so the caret can leave the table). -/
theorem c9_up_down_witness :
    (onUpDown stdOpts "UpArrow" (⟨tX, 0, 0⟩ : TablePosition)).1 = false :=
  ((c9_up_down_navigation stdOpts ⟨tX, 0, 0⟩ "UpArrow" (Or.inl rfl)).1.mpr
    (Or.inl ⟨rfl, rfl⟩)).1

/-- A node at which the engine step reports nothing to do satisfies
every rule's validate (no violation, and no thrown error). -/
theorem stepNode_some_none_valid (o : Options) (n : Node)
    (h : stepNode o n = some none) : nodeValid o n := by
  unfold stepNode at h
  cases h1 : (if cellMatch o n then cellValidate n else none) with
  | some p1 => simp [h1] at h
  | none =>
  simp only [h1] at h
  cases h2 : (if cwtMatch o n then cwtValidate o n else none) with
  | some p2 => simp [h2] at h
  | none =>
  simp only [h2] at h
  cases h3 : (if rwtMatch o n then rwtValidate o n else none) with
  | some p3 => simp [h3] at h
  | none =>
  simp only [h3] at h
  cases h4 : (if tableMatch o n then tcorValidate o n else none) with
  | some p4 => simp [h4] at h
  | none =>
  simp only [h4] at h
  cases h5 : (if tableMatch o n then rccValidate o n else none) with
  | some p5 => simp [h5] at h
  | none =>
  simp only [h5] at h
  refine ⟨?_, ?_, ?_, ?_⟩
  · intro hm
    rwa [if_pos hm] at h1
  · intro hm
    rwa [if_pos hm] at h2
  · intro hm
    rwa [if_pos hm] at h3
  · intro hm
    refine ⟨?_, ?_, ?_⟩
    · rwa [if_pos hm] at h4
    · rwa [if_pos hm] at h5
    · rw [if_pos hm] at h
      cases hv : tcadValidate o n with
      | none => simp [hv] at h
      | some q =>
        cases q with
        | none => rfl
        | some p => simp [hv] at h

mutual

/-- At a fixpoint of the engine step, every node of the tree satisfies
every rule's validate. -/
theorem stepTree_fix_valid (o : Options) :
    ∀ n : Node, stepTree o n = some none → ∀ m ∈ allNodes n, nodeValid o m
  | .text s, h, m, hm => by
    have hs : stepNode o (.text s) = some none := by
      cases hsn : stepNode o (.text s) with
      | none => simp [stepTree, hsn] at h
      | some q =>
        cases q with
        | none => rfl
        | some n2 => simp [stepTree, hsn] at h
    have hmm : m = .text s := by
      simp only [allNodes] at hm
      simpa using hm
    rw [hmm]
    exact stepNode_some_none_valid o _ hs
  | .elem k ty d cs, h, m, hm => by
    have hs : stepNode o (.elem k ty d cs) = some none := by
      cases hsn : stepNode o (.elem k ty d cs) with
      | none => simp [stepTree, hsn] at h
      | some q =>
        cases q with
        | none => rfl
        | some n2 => simp [stepTree, hsn] at h
    have hsc : stepChildren o cs = some none := by
      simp only [stepTree, hs] at h
      cases hc2 : stepChildren o cs with
      | none => simp [hc2] at h
      | some q2 =>
        cases q2 with
        | none => rfl
        | some cs2 => simp [hc2] at h
    have hm2 : m = .elem k ty d cs ∨ m ∈ allNodesList cs := by
      simp only [allNodes] at hm
      exact List.mem_cons.mp hm
    rcases hm2 with rfl | hm3
    · exact stepNode_some_none_valid o _ hs
    · exact stepChildren_fix_valid o cs hsc m hm3

/-- At a fixpoint of the engine step over a forest, every node of every
subtree satisfies every rule's validate. -/
theorem stepChildren_fix_valid (o : Options) :
    ∀ l : List Node, stepChildren o l = some none → ∀ m ∈ allNodesList l, nodeValid o m
  | [], _, m, hm => by simp [allNodesList] at hm
  | c :: cs, h, m, hm => by
    have hc : stepTree o c = some none := by
      cases hct : stepTree o c with
      | none => simp [stepChildren, hct] at h
      | some q =>
        cases q with
        | none => rfl
        | some c2 => simp [stepChildren, hct] at h
    have hrest : stepChildren o cs = some none := by
      simp only [stepChildren, hc] at h
      cases hcs : stepChildren o cs with
      | none => simp [hcs] at h
      | some q2 =>
        cases q2 with
        | none => rfl
        | some cs2 => simp [hcs] at h
    have hm2 : m ∈ allNodes c ∨ m ∈ allNodesList cs := by
      simp only [allNodesList] at hm
      exact List.mem_append.mp hm
    rcases hm2 with hm3 | hm3
    · exact stepTree_fix_valid o c hc m hm3
    · exact stepChildren_fix_valid o cs hrest m hm3

end

/-- When the fixpoint iteration returns a tree, no rule fires anywhere
on it. -/
theorem normalizeFix_fixpoint (o : Options) :
    ∀ (f : Nat) (t t2 : Node), normalizeFix o f t = some t2 → stepTree o t2 = some none := by
  intro f
  induction f with
  | zero => intro t t2 h; simp [normalizeFix] at h
  | succ f ih =>
    intro t t2 h
    simp only [normalizeFix] at h
    cases hs : stepTree o t with
    | none => simp [hs] at h
    | some q =>
      cases q with
      | none =>
        simp only [hs] at h
        have ht : t = t2 := Option.some.inj h
        rw [← ht]
        exact hs
      | some t3 =>
        simp only [hs] at h
        exact ih t3 t2 h

/-- Running the fixpoint iteration again on its own result returns the
same tree (with the same fuel). -/
theorem normalizeFix_idem (o : Options) (f : Nat) (t t2 : Node)
    (h : normalizeFix o f t = some t2) : normalizeFix o f t2 = some t2 := by
  have hfix := normalizeFix_fixpoint o f t t2 h
  cases f with
  | zero => simp [normalizeFix] at h
  | succ f => simp [normalizeFix, hfix]

/-- A table node all of whose rule validates report no violation has
only rows as children (at least one), every row holds exactly the
table's column count of cells, and the alignment vector is an array of
exactly that length. -/
theorem tableValid_width (o : Options) (T : Node) (hm : tableMatch o T = true)
    (hv : nodeValid o T) :
    T.childrenD ≠ [] ∧ (∀ r ∈ T.childrenD, isRowN o r = true)
    ∧ (∀ r ∈ T.childrenD, countCells o r = tableColumns o T)
    ∧ alignLengthRaw (getAlignRaw T.dataD) = some (tableColumns o T) := by
  obtain ⟨_, _, _, h4⟩ := hv
  obtain ⟨htcor, hrcc, htcad⟩ := h4 hm
  obtain ⟨hne, hrows⟩ := (tcorValidate_none_iff o T).mp htcor
  have hflag := (rccValidate_none_iff o T).mp hrcc
  have hfilter : T.childrenD.filter (isRowN o) = T.childrenD :=
    List.filter_eq_self.mpr hrows
  have hcount : ∀ r ∈ T.childrenD, countCells o r = tableColumns o T := by
    intro r hr
    have h := hflag r (by rw [hfilter]; exact hr)
    exact ((rowFlag_none_iff o _ r).mp h).2
  refine ⟨hne, hrows, hcount, ?_⟩
  cases hl : T.childrenD with
  | nil => exact absurd hl hne
  | cons c rest =>
    have hmemc : c ∈ T.childrenD := by rw [hl]; exact List.mem_cons_self _ _
    have hcrow : isRowN o c = true := hrows c hmemc
    have hctq : c.tyQ = some o.typeRow := beq_iff_eq.mp hcrow
    have hcq : c.childrenQ = some c.childrenD := childrenQ_of_tyQ hctq
    have hcells : ∀ x ∈ c.childrenD, isCellN o x = true := by
      have h := hflag c (by rw [hfilter]; exact hmemc)
      exact ((rowFlag_none_iff o _ c).mp h).1
    have hccount : countCells o c = tableColumns o T := hcount c hmemc
    have hlen : c.childrenD.length = tableColumns o T := by
      unfold countCells at hccount
      rw [List.filter_eq_self.mpr hcells] at hccount
      exact hccount
    simp only [tcadValidate, hl, hcq] at htcad
    by_cases hb : (alignLengthRaw (getAlignRaw T.dataD) == some c.childrenD.length) = true
    · have hba := beq_iff_eq.mp hb
      rw [hba, hlen]
    · rw [if_neg hb] at htcad
      exact absurd htcad (by simp)

/-- C1: once a full normalization pass reaches its fixpoint, every
table node in the tree has only rows as children (at least one), every
row has exactly width(T) cells — where width(T) is the maximum cell
count over the table's rows with a minimum of 1 (tableColumns) — and
the table's alignment vector is an array of length width(T). -/
theorem c1_width_invariant (o : Options) (fuel : Nat) (t t2 : Node)
    (h : normalizeFix o fuel t = some t2) :
    ∀ T ∈ allNodes t2, tableMatch o T = true →
      T.childrenD ≠ [] ∧ (∀ r ∈ T.childrenD, isRowN o r = true)
      ∧ (∀ r ∈ T.childrenD, countCells o r = tableColumns o T)
      ∧ alignLengthRaw (getAlignRaw T.dataD) = some (tableColumns o T) := by
  intro T hT hm
  have hfix := normalizeFix_fixpoint o fuel t t2 h
  exact tableValid_width o T hm (stepTree_fix_valid o t2 hfix T hT)

/-- Witness for C1 at a well-formed 1 by 1 table, already a fixpoint. -/
theorem c1_width_invariant_witness :
    normalizeFix stdOpts 1 tV = some tV
    ∧ alignLengthRaw (getAlignRaw tV.dataD) = some (tableColumns stdOpts tV) := by
  have hmem : tV ∈ allNodes tV := by
    rw [show allNodes tV = tV :: allNodesList [mkRow [mkCell ""]] from rfl]
    exact List.mem_cons_self _ _
  exact ⟨rfl, (c1_width_invariant stdOpts 1 tV tV rfl tV hmem rfl).2.2.2⟩

/-- C2: each of the six structural rules reports no violation on a node
matching it that already satisfies the rule's invariant (so normalize is
never invoked on it), and running the full engine again on the result
of a completed fixpoint run returns the same tree (the second pass
makes no edits). -/
theorem c2_rules_idempotent :
    (∀ (o : Options) (n : Node), cellMatch o n = true → cellInvariant n →
       cellValidate n = none)
    ∧ (∀ (o : Options) (n : Node), cwtMatch o n = true → cwtInvariant o n →
       cwtValidate o n = none)
    ∧ (∀ (o : Options) (n : Node), rwtMatch o n = true → rwtInvariant o n →
       rwtValidate o n = none)
    ∧ (∀ (o : Options) (n : Node), tableMatch o n = true → tcorInvariant o n →
       tcorValidate o n = none)
    ∧ (∀ (o : Options) (n : Node), tableMatch o n = true → rccInvariant o n →
       rccValidate o n = none)
    ∧ (∀ (o : Options) (n : Node), tableMatch o n = true → tcadInvariant n →
       tcadValidate o n = some none)
    ∧ (∀ (o : Options) (fuel : Nat) (t t2 : Node),
        normalizeFix o fuel t = some t2 → normalizeFix o fuel t2 = some t2) := by
  refine ⟨?_, ?_, ?_, ?_, ?_, ?_, ?_⟩
  · intro o n _ hinv
    have hnil : n.childrenD.filter (fun c => c.isBlockKind) = [] :=
      List.filter_eq_nil_iff.mpr (fun c hc => by simp [hinv c hc])
    simp [cellValidate, nestedBlocks, hnil]
  · intro o n _ hinv
    have hnil : n.childrenD.filter (isCellN o) = [] :=
      List.filter_eq_nil_iff.mpr (fun c hc => by simp [hinv c hc])
    simp [cwtValidate, hnil]
  · intro o n _ hinv
    have hnil : n.childrenD.filter (isRowN o) = [] :=
      List.filter_eq_nil_iff.mpr (fun c hc => by simp [hinv c hc])
    simp [rwtValidate, hnil]
  · intro o n _ hinv
    exact (tcorValidate_none_iff o n).mpr hinv
  · intro o n _ hinv
    refine (rccValidate_none_iff o n).mpr ?_
    intro r hr
    exact (rowFlag_none_iff o _ r).mpr (hinv r hr)
  · intro o n _ hinv
    obtain ⟨c, rest, cs, hl, hcq, hal⟩ := hinv
    simp only [tcadValidate, hl, hcq]
    rw [if_pos (beq_iff_eq.mpr hal)]
  · intro o fuel t t2 h
    exact normalizeFix_idem o fuel t t2 h

/-- C5 counterexample: normalizing the document with two orphan sibling
cells reaches a fixpoint containing two table nodes, not the single
table the claim describes. -/
theorem c5_orphan_cells_two_tables :
    (normalizeFix stdOpts 9 doc5).map
        (fun t => ((allNodes t).filter (fun n => tableMatch stdOpts n)).length) = some 2
    ∧ (2 : Nat) ≠ 1 :=
  ⟨rfl, by decide⟩

/-- C5 amended: for a document with two orphan sibling cells, the
fixpoint wraps each cell in its own row and each row in its own table,
yielding two 1 by 1 tables, each with alignment vector of length 1
holding the default tag. -/
theorem c5_orphan_cells_amended : normalizeFix stdOpts 9 doc5 = some doc5fix := rfl

end SlateTable
